import Mathlib

/-!
# Verification of the KNewStuff excerpt (Author QML adapter, KMoreTools)

Shallow embedding of `src/qtquick/author.cpp` and of the KMoreTools
interfaces declared in `src/kmoretools/kmoretools.h`, with theorems about
the author-cache behaviour, the setter guards, the deferred-initialization
flag, and the KMoreTools service/builder maps.

Strings model `QString`; `QUrl` values are modelled by their string form
(the empty `QUrl{}` is `""`).  The process-wide `allAuthors` `QHash` is
modelled as an association list with `QHash::insert` replace-on-collision
semantics.  Asynchronous effects (`loadPerson` requests, emitted Qt
signals) are returned explicitly as lists of events.
-/

/-- Association-list lookup, modelling `QHash::value` (returning a null
`shared_ptr`, i.e. `none`, when the key is absent). -/
def assocValue {α : Type} (c : List (String × α)) (k : String) : Option α :=
  match c with
  | [] => none
  | (k', a) :: rest => if k' = k then some a else assocValue rest k

/-- Association-list insert, modelling `QHash::insert`: if the key is
already present its value is replaced, otherwise the pair is added. -/
def assocInsert {α : Type} (c : List (String × α)) (k : String) (a : α) :
    List (String × α) :=
  match c with
  | [] => [(k, a)]
  | (k', a') :: rest =>
    if k' = k then (k, a) :: rest else (k', a') :: assocInsert rest k a

theorem assocValue_assocInsert {α : Type} (c : List (String × α))
    (k k' : String) (a : α) :
    assocValue (assocInsert c k a) k' =
      if k = k' then some a else assocValue c k' := by
  induction c with
  | nil =>
    simp only [assocInsert, assocValue]
  | cons hd tl ih =>
    obtain ⟨hk, ha⟩ := hd
    by_cases h1 : hk = k
    · subst h1
      simp only [assocInsert, if_pos rfl, assocValue]
      by_cases h2 : hk = k'
      · simp [h2]
      · simp [h2]
    · simp only [assocInsert, if_neg h1, assocValue, ih]
      by_cases h2 : hk = k'
      · subst h2
        simp only [if_pos rfl]
        have : ¬ k = hk := fun h => h1 h.symm
        simp [this]
      · simp [h2]

namespace KNSCore

/-- The `KNSCore::Author` record carried by the `personLoaded` signal of
the provider and stored in the shared cache (`core/author.h`). -/
structure Author where
  id : String
  name : String
  description : String
  homepage : String
  profilepage : String
  avatarUrl : String
deriving DecidableEq, Repr

/-- A `KNSCore::Provider`: for this excerpt only its `id()` matters; the
`loadPerson`/`personLoaded` behaviour is modelled as explicit events. -/
structure Provider where
  id : String
deriving DecidableEq, Repr

/-- A `KNSCore::Engine`: resolves providers by id and exposes a default
provider. Modelled with an explicit provider list so that equality stays
decidable. -/
structure Engine where
  providers : List Provider
  defaultProvider : Option Provider
deriving DecidableEq, Repr

/-- `KNSCore::Engine::provider(providerId)`: look a provider up by id. -/
def Engine.provider (e : Engine) (providerId : String) : Option Provider :=
  e.providers.find? (fun p => p.id == providerId)

end KNSCore

namespace KNewStuffQuick

/-- The QtQuick `Engine` wrapper; `coreEngine` models
`qobject_cast<KNSCore::Engine*>(engine->engine())`, `none` standing for a
null result of `engine->engine()`. -/
structure Engine where
  coreEngine : Option KNSCore.Engine
deriving DecidableEq, Repr

/-- The process-wide `allAuthors` hash of `author.cpp` (line 38), keyed by
the composite string built from provider id and username. -/
abbrev AllAuthorsHash := List (String × KNSCore.Author)

/-- The key `QString::fromLatin1("%1 %2").arg(pid).arg(uname)` used for
both lookup (line 81) and insert (line 70) in `author.cpp`. -/
def authorKey (pid uname : String) : String := pid ++ " " ++ uname

/-- The fields of `Author::Private` (author.cpp lines 40-51). -/
structure AuthorData where
  componentCompleted : Bool
  engine : Option Engine
  providerId : String
  username : String
  provider : Option KNSCore.Provider
deriving DecidableEq, Repr

/-- A fresh `Author` adapter as constructed by `Author::Author`. -/
def initialAuthorData : AuthorData :=
  { componentCompleted := false
    engine := none
    providerId := ""
    username := ""
    provider := none }

/-- An asynchronous request issued to the provider. -/
inductive Request where
  | loadPerson (username : String)
deriving DecidableEq, Repr

/-- A Qt signal emitted by the adapter. -/
inductive Signal where
  | engineChanged
  | providerIdChanged
  | usernameChanged
  | dataChanged
deriving DecidableEq, Repr

/-- `Author::Private::author()` (author.cpp lines 77-87): look the author
up in the shared cache; on a miss with a resolved provider and non-empty
username, issue a `loadPerson` request and return a null pointer. -/
def AuthorData.author (s : AuthorData) (cache : AllAuthorsHash) :
    Option KNSCore.Author × List Request :=
  match s.provider with
  | some p =>
    if s.username ≠ "" then
      match assocValue cache (authorKey p.id s.username) with
      | some a => (some a, [])
      | none => (none, [Request.loadPerson s.username])
    else (none, [])
  | none => (none, [])

/-- The provider-resolution part of `Author::Private::resetConnections()`
(author.cpp lines 59-67): the provider registered under `providerId`,
else the default provider of the engine; the old provider is kept when no core
engine is reachable. -/
def AuthorData.resolveProvider (s : AuthorData) : Option KNSCore.Provider :=
  match s.engine with
  | some eng =>
    match eng.coreEngine with
    | some ce =>
      match ce.provider s.providerId with
      | some p => some p
      | none => ce.defaultProvider
    | none => s.provider
  | none => s.provider

/-- `Author::Private::resetConnections()` (author.cpp lines 52-75): a
no-op before `componentComplete`; otherwise re-resolve the provider and,
when one is present, run `author()` to populate or request the record. -/
def AuthorData.resetConnections (s : AuthorData) (cache : AllAuthorsHash) :
    AuthorData × List Request :=
  if s.componentCompleted = false then (s, [])
  else
    match s.resolveProvider with
    | some p =>
      ({ s with provider := some p },
       (AuthorData.author { s with provider := some p } cache).2)
    | none => ({ s with provider := none }, [])

/-- `Author::componentComplete()` (author.cpp lines 110-114). -/
def AuthorData.componentComplete (s : AuthorData) (cache : AllAuthorsHash) :
    AuthorData × List Request :=
  AuthorData.resetConnections { s with componentCompleted := true } cache

/-- `Author::setEngine` (author.cpp lines 121-128): guarded on change;
stores the new engine, resets connections, emits `engineChanged`. -/
def AuthorData.setEngine (s : AuthorData) (cache : AllAuthorsHash)
    (newEngine : Option Engine) : AuthorData × List Request × List Signal :=
  if s.engine ≠ newEngine then
    let s' := (AuthorData.resetConnections { s with engine := newEngine } cache)
    (s'.1, s'.2, [Signal.engineChanged])
  else (s, [], [])

/-- `Author::setProviderId` (author.cpp lines 135-142). -/
def AuthorData.setProviderId (s : AuthorData) (cache : AllAuthorsHash)
    (providerId : String) : AuthorData × List Request × List Signal :=
  if s.providerId ≠ providerId then
    let s' := (AuthorData.resetConnections { s with providerId := providerId } cache)
    (s'.1, s'.2, [Signal.providerIdChanged])
  else (s, [], [])

/-- `Author::setUsername` (author.cpp lines 149-156). -/
def AuthorData.setUsername (s : AuthorData) (cache : AllAuthorsHash)
    (username : String) : AuthorData × List Request × List Signal :=
  if s.username ≠ username then
    let s' := (AuthorData.resetConnections { s with username := username } cache)
    (s'.1, s'.2, [Signal.usernameChanged])
  else (s, [], [])

/-- The lambda connected to `KNSCore::Provider::personLoaded`
(author.cpp lines 69-72): insert the loaded record under the key built
from the id of the current provider and the own id of the record, then emit
`dataChanged`.  Only connected while a provider is resolved. -/
def AuthorData.onPersonLoaded (s : AuthorData) (cache : AllAuthorsHash)
    (a : KNSCore.Author) : AllAuthorsHash × List Signal :=
  match s.provider with
  | some p => (assocInsert cache (authorKey p.id a.id) a, [Signal.dataChanged])
  | none => (cache, [])

/-- `Author::name()` (author.cpp lines 158-165): the name of the record when
present and non-empty, else the raw username. -/
def AuthorData.name (s : AuthorData) (cache : AllAuthorsHash) :
    String × List Request :=
  match s.author cache with
  | (some a, reqs) => if a.name ≠ "" then (a.name, reqs) else (s.username, reqs)
  | (none, reqs) => (s.username, reqs)

/-- `Author::description()` (author.cpp lines 167-174). -/
def AuthorData.description (s : AuthorData) (cache : AllAuthorsHash) :
    String × List Request :=
  match s.author cache with
  | (some a, reqs) => (a.description, reqs)
  | (none, reqs) => ("", reqs)

/-- `Author::homepage()` (author.cpp lines 176-183). -/
def AuthorData.homepage (s : AuthorData) (cache : AllAuthorsHash) :
    String × List Request :=
  match s.author cache with
  | (some a, reqs) => (a.homepage, reqs)
  | (none, reqs) => ("", reqs)

/-- `Author::profilepage()` (author.cpp lines 185-192). -/
def AuthorData.profilepage (s : AuthorData) (cache : AllAuthorsHash) :
    String × List Request :=
  match s.author cache with
  | (some a, reqs) => (a.profilepage, reqs)
  | (none, reqs) => ("", reqs)

/-- `Author::avatarUrl()` (author.cpp lines 194-201); `QUrl{}` is the
empty string. -/
def AuthorData.avatarUrl (s : AuthorData) (cache : AllAuthorsHash) :
    String × List Request :=
  match s.author cache with
  | (some a, reqs) => (a.avatarUrl, reqs)
  | (none, reqs) => ("", reqs)

/-- The operations of the `Author` adapter that can touch the shared
cache or the adapter state, for stating cache invariants uniformly. -/
inductive AuthorOp where
  | setEngine (e : Option Engine)
  | setProviderId (pid : String)
  | setUsername (u : String)
  | componentComplete
  | getName
  | getDescription
  | getHomepage
  | getProfilepage
  | getAvatarUrl
  | personLoaded (a : KNSCore.Author)
deriving DecidableEq, Repr

/-- One step of the adapter: the new adapter state, the new shared cache,
the issued requests and the emitted signals. -/
def applyOp (op : AuthorOp) (s : AuthorData) (cache : AllAuthorsHash) :
    AuthorData × AllAuthorsHash × List Request × List Signal :=
  match op with
  | .setEngine e =>
    let r := s.setEngine cache e
    (r.1, cache, r.2.1, r.2.2)
  | .setProviderId pid =>
    let r := s.setProviderId cache pid
    (r.1, cache, r.2.1, r.2.2)
  | .setUsername u =>
    let r := s.setUsername cache u
    (r.1, cache, r.2.1, r.2.2)
  | .componentComplete =>
    let r := s.componentComplete cache
    (r.1, cache, r.2, [])
  | .getName => (s, cache, (s.name cache).2, [])
  | .getDescription => (s, cache, (s.description cache).2, [])
  | .getHomepage => (s, cache, (s.homepage cache).2, [])
  | .getProfilepage => (s, cache, (s.profilepage cache).2, [])
  | .getAvatarUrl => (s, cache, (s.avatarUrl cache).2, [])
  | .personLoaded a =>
    let r := s.onPersonLoaded cache a
    (s, r.1, [], r.2)

end KNewStuffQuick

namespace KMoreTools

/-- The two menu sections of `KMoreTools::MenuSection`
(kmoretools.h lines 184-195). -/
inductive MenuSection where
  | main
  | more
deriving DecidableEq, Repr

/-- Modelled from the spec: the implementation of `KMoreToolsService`
(kmoretools.cpp) is not in the excerpt; only the desktop-file fields the
format-string chain reads are modelled — the generic name and name coming
from whichever descriptor resolved, and the desktop entry name the
service was registered under. -/
structure ServiceData where
  desktopEntryName : String
  genericName : String
  name : String
deriving DecidableEq, Repr

/-- Modelled from the spec: the `$Name` tier — the name field of the descriptor when
non-empty, else the desktop entry name. -/
def ServiceData.resolvedName (s : ServiceData) : String :=
  if s.name ≠ "" then s.name else s.desktopEntryName

/-- Modelled from the spec: the `$GenericName` tier — the generic-name
field of the descriptor when non-empty, else the `$Name` tier. -/
def ServiceData.resolvedGenericName (s : ServiceData) : String :=
  if s.genericName ≠ "" then s.genericName else s.resolvedName

/-- Modelled from the spec: `KMoreToolsService::formatString`
(kmoretools.cpp is absent; kmoretools.h lines 401-420 documents it) —
each placeholder is replaced by its tier of the first-non-empty-wins
chain generic name → name → desktop entry name; substitution is modelled
at whole-placeholder granularity. -/
def ServiceData.formatString (s : ServiceData) (fmt : String) : String :=
  if fmt = "$GenericName" then s.resolvedGenericName
  else if fmt = "$Name" then s.resolvedName
  else if fmt = "$DesktopEntryName" then s.desktopEntryName
  else fmt

/-- The state of a `KMoreTools` instance: the registered-service map
(desktop entry name to live handle), the memoized menu builders
(user-config postfix to builder handle), and fresh-handle counters.
Handles stand for the C++ object identities (pointer equality). -/
structure State where
  services : List (String × Nat)
  builders : List (String × Nat)
  nextServiceHandle : Nat
  nextBuilderHandle : Nat
deriving DecidableEq, Repr

/-- A freshly constructed `KMoreTools` instance. -/
def initialState : State :=
  { services := []
    builders := []
    nextServiceHandle := 0
    nextBuilderHandle := 0 }

/-- Modelled from the spec: `KMoreTools::registerServiceByDesktopEntryName`
(kmoretools.cpp is absent; kmoretools.h lines 276-314) — the service is
located again, a new handle is created, and any prior handle for the same
desktop entry name is replaced in the service map. -/
def registerServiceByDesktopEntryName (st : State) (desktopEntryName : String) :
    Nat × State :=
  (st.nextServiceHandle,
   { st with
      services := assocInsert st.services desktopEntryName st.nextServiceHandle
      nextServiceHandle := st.nextServiceHandle + 1 })

/-- Modelled from the spec: `KMoreTools::menuBuilder(userConfigPostfix)`
(kmoretools.cpp is absent; kmoretools.h lines 316-330) — the builder for
the given postfix is returned if already created, else a fresh builder is
created, stored under the postfix and returned; builders are never
discarded while the `KMoreTools` instance lives. -/
def menuBuilder (st : State) ( userConfigPostfix : String) : Nat × State :=
  match assocValue st.builders userConfigPostfix with
  | some b => (b, st)
  | none =>
    (st.nextBuilderHandle,
     { st with
        builders := assocInsert st.builders userConfigPostfix st.nextBuilderHandle
        nextBuilderHandle := st.nextBuilderHandle + 1 })

/-- Every handle stored in the service or builder map is below the
corresponding fresh-handle counter, and within each map handles are
unique per key.  Holds for `initialState` and is preserved by the
operations. -/
def State.WF (st : State) : Prop :=
  (∀ p ∈ st.services, p.2 < st.nextServiceHandle) ∧
  (∀ p ∈ st.builders, p.2 < st.nextBuilderHandle) ∧
  (∀ p ∈ st.builders, ∀ q ∈ st.builders, p.2 = q.2 → p.1 = q.1)

instance (st : State) : Decidable st.WF := by
  unfold State.WF
  infer_instance

/-- A menu item as accumulated by `KMoreToolsMenuBuilder::addMenuItem`:
either backed by a registered service (with its installed flag) or by a
caller-supplied action, with a requested default section. -/
structure MenuItemData where
  itemId : String
  serviceBacked : Bool
  installed : Bool
  defaultLocation : MenuSection
deriving DecidableEq, Repr

/-- Where `buildByAppendingToMenu` places an item in the built menu. -/
inductive Placement where
  | mainSection
  | moreSection
  | notInstalledSection
deriving DecidableEq, Repr

/-- Modelled from the spec: the placement rule of
`KMoreToolsMenuBuilder::buildByAppendingToMenu` (kmoretools.cpp is
absent; kmoretools.h lines 493-512 and 540-558) — an item backed by a
not-installed service goes to the "Not installed" subsection of the
"More" submenu regardless of its default section; other items follow
their section. -/
def placeItem (it : MenuItemData) : Placement :=
  if it.serviceBacked = true ∧ it.installed = false then Placement.notInstalledSection
  else
    match it.defaultLocation with
    | MenuSection.main => Placement.mainSection
    | MenuSection.more => Placement.moreSection

/-- Modelled from the spec: `buildByAppendingToMenu` partitions the
accumulated items into the main section, the "More" submenu, and its
trailing "Not installed" subsection. -/
def buildByAppendingToMenu (items : List MenuItemData) :
    List MenuItemData × List MenuItemData × List MenuItemData :=
  (items.filter (fun it => placeItem it == Placement.mainSection),
   items.filter (fun it => placeItem it == Placement.moreSection),
   items.filter (fun it => placeItem it == Placement.notInstalledSection))

end KMoreTools

/-! ## Helper lemmas -/

theorem assocValue_mem {α : Type} (c : List (String × α)) (k : String) (v : α)
    (h : assocValue c k = some v) : (k, v) ∈ c := by
  induction c with
  | nil => simp [assocValue] at h
  | cons hd tl ih =>
    obtain ⟨hk, ha⟩ := hd
    rw [show assocValue ((hk, ha) :: tl) k
          = if hk = k then some ha else assocValue tl k from rfl] at h
    by_cases h1 : hk = k
    · rw [if_pos h1] at h
      injection h with h2
      subst h1
      subst h2
      exact List.mem_cons_self _ _
    · rw [if_neg h1] at h
      exact List.mem_cons_of_mem _ (ih h)

theorem mem_assocInsert {α : Type} (c : List (String × α)) (k : String) (v : α)
    (q : String × α) (h : q ∈ assocInsert c k v) : q = (k, v) ∨ q ∈ c := by
  induction c with
  | nil =>
    simp only [assocInsert, List.mem_singleton] at h
    exact Or.inl h
  | cons hd tl ih =>
    obtain ⟨hk, ha⟩ := hd
    rw [show assocInsert ((hk, ha) :: tl) k v
          = if hk = k then (k, v) :: tl else (hk, ha) :: assocInsert tl k v
        from rfl] at h
    by_cases h1 : hk = k
    · rw [if_pos h1] at h
      rcases List.mem_cons.mp h with h2 | h2
      · exact Or.inl h2
      · exact Or.inr (List.mem_cons_of_mem _ h2)
    · rw [if_neg h1] at h
      rcases List.mem_cons.mp h with h2 | h2
      · exact Or.inr (by rw [h2]; exact List.mem_cons_self _ _)
      · rcases ih h2 with h3 | h3
        · exact Or.inl h3
        · exact Or.inr (List.mem_cons_of_mem _ h3)

/-- Keys are pairwise distinct in an association list. -/
def keysUnique {α : Type} (c : List (String × α)) : Prop :=
  c.Pairwise (fun p q => p.1 ≠ q.1)

instance {α : Type} [DecidableEq α] (c : List (String × α)) :
    Decidable (keysUnique c) := by
  unfold keysUnique
  infer_instance

theorem keysUnique_assocInsert {α : Type} (c : List (String × α))
    (k : String) (v : α) (h : keysUnique c) : keysUnique (assocInsert c k v) := by
  induction c with
  | nil =>
    simp [assocInsert, keysUnique]
  | cons hd tl ih =>
    obtain ⟨hk, ha⟩ := hd
    rw [keysUnique, List.pairwise_cons] at h
    obtain ⟨hhd, htl⟩ := h
    rw [show assocInsert ((hk, ha) :: tl) k v
          = if hk = k then (k, v) :: tl else (hk, ha) :: assocInsert tl k v
        from rfl]
    by_cases h1 : hk = k
    · rw [if_pos h1]
      rw [keysUnique, List.pairwise_cons]
      subst h1
      exact ⟨hhd, htl⟩
    · rw [if_neg h1]
      rw [keysUnique, List.pairwise_cons]
      refine ⟨?_, ih htl⟩
      intro q hq
      rcases mem_assocInsert tl k v q hq with h' | h'
      · rw [h']
        exact h1
      · exact hhd q h'

namespace KNewStuffQuick

/-- `resetConnections` touches only the `provider` field of the adapter
state. -/
theorem resetConnections_fields (s : AuthorData) (cache : AllAuthorsHash) :
    ((s.resetConnections cache).1.componentCompleted = s.componentCompleted) ∧
    ((s.resetConnections cache).1.engine = s.engine) ∧
    ((s.resetConnections cache).1.providerId = s.providerId) ∧
    ((s.resetConnections cache).1.username = s.username) := by
  unfold AuthorData.resetConnections
  by_cases h : s.componentCompleted = false
  · simp [h]
  · simp only [h, if_false]
    cases s.resolveProvider with
    | some p => exact ⟨rfl, rfl, rfl, rfl⟩
    | none => exact ⟨rfl, rfl, rfl, rfl⟩

end KNewStuffQuick

namespace KNewStuffQuick

/-- On a cache miss with a resolved provider and non-empty username,
`author()` returns no record and issues exactly one `loadPerson`. -/
theorem author_miss (s : AuthorData) (cache : AllAuthorsHash)
    (p : KNSCore.Provider) (hp : s.provider = some p) (hu : s.username ≠ "")
    (hmiss : assocValue cache (authorKey p.id s.username) = none) :
    s.author cache = (none, [Request.loadPerson s.username]) := by
  simp only [AuthorData.author, hp]
  rw [if_pos hu]
  simp only [hmiss]

/-- On a cache hit, `author()` returns the record and issues nothing. -/
theorem author_hit (s : AuthorData) (cache : AllAuthorsHash)
    (p : KNSCore.Provider) (a : KNSCore.Author)
    (hp : s.provider = some p) (hu : s.username ≠ "")
    (hhit : assocValue cache (authorKey p.id s.username) = some a) :
    s.author cache = (some a, []) := by
  simp only [AuthorData.author, hp]
  rw [if_pos hu]
  simp only [hhit]

/-- Claim C1: With a resolved provider `p` and non-empty username `u`, when
the shared author cache has no entry for `(p, u)`, each property accessor
issues exactly one `loadPerson(u)` request and returns synchronously with
the placeholder fallback; in particular `name()` returns the raw
username `u`. -/
theorem author_miss_loads_once_and_falls_back
    (s : AuthorData) (cache : AllAuthorsHash) (p : KNSCore.Provider)
    (hp : s.provider = some p) (hu : s.username ≠ "")
    (hmiss : assocValue cache (authorKey p.id s.username) = none) :
    s.name cache = (s.username, [Request.loadPerson s.username]) ∧
    (s.description cache).2 = [Request.loadPerson s.username] ∧
    (s.homepage cache).2 = [Request.loadPerson s.username] ∧
    (s.profilepage cache).2 = [Request.loadPerson s.username] ∧
    (s.avatarUrl cache).2 = [Request.loadPerson s.username] := by
  have ha := author_miss s cache p hp hu hmiss
  refine ⟨?_, ?_, ?_, ?_, ?_⟩
  · simp only [AuthorData.name, ha]
  · simp only [AuthorData.description, ha]
  · simp only [AuthorData.homepage, ha]
  · simp only [AuthorData.profilepage, ha]
  · simp only [AuthorData.avatarUrl, ha]

/-- A connected adapter looking up the not-yet-cached user `alice`. -/
def missState : AuthorData :=
  { componentCompleted := true
    engine := none
    providerId := ""
    username := "alice"
    provider := some { id := "p" } }

/-- Witness for C1 at `missState` with an empty cache. -/
theorem author_miss_loads_once_and_falls_back_witness :
    missState.name [] = ("alice", [Request.loadPerson "alice"]) :=
  (author_miss_loads_once_and_falls_back missState [] { id := "p" } rfl
    (by decide) rfl).1

/-- Claim C2: When `personLoaded` fires on the connected provider for the
looked-up username (the id of the record equals the stored username), the
record is inserted under the composite provider-id/username key, one
`dataChanged` is emitted, the subsequent lookup finds the record, and
`name()` now returns the resolved display name. -/
theorem personLoaded_caches_and_resolves
    (s : AuthorData) (cache : AllAuthorsHash) (p : KNSCore.Provider)
    (a : KNSCore.Author) (hp : s.provider = some p) (hid : a.id = s.username)
    (hu : s.username ≠ "") (hname : a.name ≠ "") :
    s.onPersonLoaded cache a =
      (assocInsert cache (authorKey p.id s.username) a, [Signal.dataChanged]) ∧
    assocValue (s.onPersonLoaded cache a).1 (authorKey p.id s.username) = some a ∧
    s.name (s.onPersonLoaded cache a).1 = (a.name, []) := by
  have hload : s.onPersonLoaded cache a =
      (assocInsert cache (authorKey p.id s.username) a, [Signal.dataChanged]) := by
    unfold AuthorData.onPersonLoaded
    rw [hp]
    rw [hid]
  have hfind : assocValue (s.onPersonLoaded cache a).1
      (authorKey p.id s.username) = some a := by
    rw [hload]
    rw [assocValue_assocInsert]
    rw [if_pos rfl]
  refine ⟨hload, hfind, ?_⟩
  have hauthor := author_hit s (s.onPersonLoaded cache a).1 p a hp hu hfind
  simp only [AuthorData.name, hauthor]
  rw [if_pos hname]

/-- The record the provider delivers for `alice`. -/
def aliceRecord : KNSCore.Author :=
  { id := "alice"
    name := "Alice A."
    description := "writes themes"
    homepage := "https://alice.example"
    profilepage := "https://store.example/alice"
    avatarUrl := "https://alice.example/a.png" }

/-- Witness for C2 at `missState` with an empty cache. -/
theorem personLoaded_caches_and_resolves_witness :
    missState.name (missState.onPersonLoaded [] aliceRecord).1 =
      ("Alice A.", []) :=
  (personLoaded_caches_and_resolves missState [] { id := "p" } aliceRecord rfl
    rfl (by decide) (by decide)).2.2

/-- Claim C4: When no author record is cached for the current
(provider, username), every accessor degrades gracefully: `name()` is the
raw username, `description()`, `homepage()` and `profilepage()` are the
empty string, and `avatarUrl()` is the empty URL. -/
theorem accessors_degrade_gracefully
    (s : AuthorData) (cache : AllAuthorsHash)
    (hmiss : ∀ p, s.provider = some p →
      assocValue cache (authorKey p.id s.username) = none) :
    (s.name cache).1 = s.username ∧
    (s.description cache).1 = "" ∧
    (s.homepage cache).1 = "" ∧
    (s.profilepage cache).1 = "" ∧
    (s.avatarUrl cache).1 = "" := by
  have ha : ∃ reqs, s.author cache = (none, reqs) := by
    cases hp : s.provider with
    | none => exact ⟨[], by simp only [AuthorData.author, hp]⟩
    | some p =>
      by_cases hu : s.username ≠ ""
      · refine ⟨[Request.loadPerson s.username], ?_⟩
        simp only [AuthorData.author, hp]
        rw [if_pos hu]
        simp only [hmiss p hp]
      · refine ⟨[], ?_⟩
        simp only [AuthorData.author, hp]
        rw [if_neg hu]
  obtain ⟨reqs, ha⟩ := ha
  refine ⟨?_, ?_, ?_, ?_, ?_⟩
  · simp only [AuthorData.name, ha]
  · simp only [AuthorData.description, ha]
  · simp only [AuthorData.homepage, ha]
  · simp only [AuthorData.profilepage, ha]
  · simp only [AuthorData.avatarUrl, ha]

/-- Witness for C4 at `missState` with an empty cache. -/
theorem accessors_degrade_gracefully_witness :
    (missState.name []).1 = "alice" ∧
    (missState.description []).1 = "" ∧
    (missState.homepage []).1 = "" ∧
    (missState.profilepage []).1 = "" ∧
    (missState.avatarUrl []).1 = "" :=
  accessors_degrade_gracefully missState [] (fun _ _ => rfl)

end KNewStuffQuick

namespace KNewStuffQuick

/-- Claim C5: Each setter is guarded on change: a call with the currently
stored value changes nothing and emits nothing; a call with a different
value stores exactly that field, runs `resetConnections`, and emits the
corresponding change signal, leaving the other two stored fields
untouched. -/
theorem setters_guarded_on_change (s : AuthorData) (cache : AllAuthorsHash) :
    (s.setEngine cache s.engine = (s, [], []) ∧
     s.setProviderId cache s.providerId = (s, [], []) ∧
     s.setUsername cache s.username = (s, [], [])) ∧
    (∀ e, e ≠ s.engine →
       s.setEngine cache e =
         ((AuthorData.resetConnections { s with engine := e } cache).1,
          (AuthorData.resetConnections { s with engine := e } cache).2,
          [Signal.engineChanged]) ∧
       (s.setEngine cache e).1.engine = e ∧
       (s.setEngine cache e).1.providerId = s.providerId ∧
       (s.setEngine cache e).1.username = s.username) ∧
    (∀ pid, pid ≠ s.providerId →
       s.setProviderId cache pid =
         ((AuthorData.resetConnections { s with providerId := pid } cache).1,
          (AuthorData.resetConnections { s with providerId := pid } cache).2,
          [Signal.providerIdChanged]) ∧
       (s.setProviderId cache pid).1.providerId = pid ∧
       (s.setProviderId cache pid).1.engine = s.engine ∧
       (s.setProviderId cache pid).1.username = s.username) ∧
    (∀ u, u ≠ s.username →
       s.setUsername cache u =
         ((AuthorData.resetConnections { s with username := u } cache).1,
          (AuthorData.resetConnections { s with username := u } cache).2,
          [Signal.usernameChanged]) ∧
       (s.setUsername cache u).1.username = u ∧
       (s.setUsername cache u).1.engine = s.engine ∧
       (s.setUsername cache u).1.providerId = s.providerId) := by
  refine ⟨⟨?_, ?_, ?_⟩, ?_, ?_, ?_⟩
  · simp [AuthorData.setEngine]
  · simp [AuthorData.setProviderId]
  · simp [AuthorData.setUsername]
  · intro e he
    have hset : s.setEngine cache e =
        ((AuthorData.resetConnections { s with engine := e } cache).1,
         (AuthorData.resetConnections { s with engine := e } cache).2,
         [Signal.engineChanged]) := by
      unfold AuthorData.setEngine
      rw [if_pos (Ne.symm he)]
    have hf := resetConnections_fields { s with engine := e } cache
    refine ⟨hset, ?_, ?_, ?_⟩
    · rw [hset]
      exact hf.2.1
    · rw [hset]
      exact hf.2.2.1
    · rw [hset]
      exact hf.2.2.2
  · intro pid hpid
    have hset : s.setProviderId cache pid =
        ((AuthorData.resetConnections { s with providerId := pid } cache).1,
         (AuthorData.resetConnections { s with providerId := pid } cache).2,
         [Signal.providerIdChanged]) := by
      unfold AuthorData.setProviderId
      rw [if_pos (Ne.symm hpid)]
    have hf := resetConnections_fields { s with providerId := pid } cache
    refine ⟨hset, ?_, ?_, ?_⟩
    · rw [hset]
      exact hf.2.2.1
    · rw [hset]
      exact hf.2.1
    · rw [hset]
      exact hf.2.2.2
  · intro u hu
    have hset : s.setUsername cache u =
        ((AuthorData.resetConnections { s with username := u } cache).1,
         (AuthorData.resetConnections { s with username := u } cache).2,
         [Signal.usernameChanged]) := by
      unfold AuthorData.setUsername
      rw [if_pos (Ne.symm hu)]
    have hf := resetConnections_fields { s with username := u } cache
    refine ⟨hset, ?_, ?_, ?_⟩
    · rw [hset]
      exact hf.2.2.2
    · rw [hset]
      exact hf.2.1
    · rw [hset]
      exact hf.2.2.1

/-- Witness for C5 at `missState` with an empty cache. -/
theorem setters_guarded_on_change_witness :
    missState.setUsername [] "alice" = (missState, [], []) ∧
    (missState.setUsername [] "bob").2.2 = [Signal.usernameChanged] ∧
    (missState.setUsername [] "bob").1.username = "bob" ∧
    (missState.setUsername [] "bob").1.providerId = "" := by
  have h := setters_guarded_on_change missState []
  refine ⟨h.1.2.2, ?_, ?_, ?_⟩
  · rw [(h.2.2.2 "bob" (by decide)).1]
  · exact (h.2.2.2 "bob" (by decide)).2.1
  · exact (h.2.2.2 "bob" (by decide)).2.2.2

/-- Claim C6: Until `componentComplete()` has run, `resetConnections()`
returns immediately — no provider is resolved and no lookup is issued —
while the setters still store new values and emit their change signals. -/
theorem deferred_until_componentComplete
    (s : AuthorData) (cache : AllAuthorsHash)
    (h : s.componentCompleted = false) :
    s.resetConnections cache = (s, []) ∧
    (∀ e, e ≠ s.engine →
       s.setEngine cache e =
         ({ s with engine := e }, [], [Signal.engineChanged])) ∧
    (∀ pid, pid ≠ s.providerId →
       s.setProviderId cache pid =
         ({ s with providerId := pid }, [], [Signal.providerIdChanged])) ∧
    (∀ u, u ≠ s.username →
       s.setUsername cache u =
         ({ s with username := u }, [], [Signal.usernameChanged])) := by
  have hrc : ∀ (s' : AuthorData), s'.componentCompleted = false →
      s'.resetConnections cache = (s', []) := by
    intro s' h'
    unfold AuthorData.resetConnections
    rw [if_pos h']
  refine ⟨hrc s h, ?_, ?_, ?_⟩
  · intro e he
    unfold AuthorData.setEngine
    rw [if_pos (Ne.symm he)]
    rw [hrc { s with engine := e } h]
  · intro pid hpid
    unfold AuthorData.setProviderId
    rw [if_pos (Ne.symm hpid)]
    rw [hrc { s with providerId := pid } h]
  · intro u hu
    unfold AuthorData.setUsername
    rw [if_pos (Ne.symm hu)]
    rw [hrc { s with username := u } h]

/-- Witness for C6 at a fresh adapter. -/
theorem deferred_until_componentComplete_witness :
    initialAuthorData.resetConnections [] = (initialAuthorData, []) ∧
    initialAuthorData.setUsername [] "alice" =
      ({ initialAuthorData with username := "alice" }, [],
       [Signal.usernameChanged]) := by
  have h := deferred_until_componentComplete initialAuthorData [] rfl
  exact ⟨h.1, h.2.2.2 "alice" (by decide)⟩

end KNewStuffQuick

namespace KNewStuffQuick

/-- Claim C3 as stated: every adapter operation preserves every existing
key-to-record mapping of the shared cache (it only leaves the cache
unchanged or adds mappings). -/
def allAuthorsMappingsPreserved : Prop :=
  ∀ (op : AuthorOp) (s : AuthorData) (cache : AllAuthorsHash) (k : String)
    (r : KNSCore.Author),
    assocValue cache k = some r → assocValue (applyOp op s cache).2.1 k = some r

/-- A stale record for `alice`, differing from `aliceRecord`. -/
def staleAliceRecord : KNSCore.Author :=
  { id := "alice"
    name := "Alice"
    description := ""
    homepage := ""
    profilepage := ""
    avatarUrl := "" }

/-- Counterexample to C3 as stated: when `personLoaded` fires a second
time for the same key with a different record, `QHash::insert` replaces
the previously stored record, so the old key-to-record mapping is gone. -/
theorem allAuthorsMappingsPreserved_counterexample :
    ¬ allAuthorsMappingsPreserved := by
  intro h
  have h2 := h (AuthorOp.personLoaded aliceRecord) missState
      [(authorKey "p" "alice", staleAliceRecord)] (authorKey "p" "alice")
      staleAliceRecord (by decide)
  exact absurd h2 (by decide)

/-- Claim C3 amended: every adapter operation either leaves the shared
cache unchanged or performs a `QHash::insert`; the key set never shrinks
(every key cached before is still cached after), though a later
completion for an already-cached key overwrites the stored record. -/
theorem allAuthors_insert_only (op : AuthorOp) (s : AuthorData)
    (cache : AllAuthorsHash) :
    ((applyOp op s cache).2.1 = cache ∨
      ∃ k a, (applyOp op s cache).2.1 = assocInsert cache k a) ∧
    (∀ k, assocValue cache k ≠ none →
      assocValue (applyOp op s cache).2.1 k ≠ none) := by
  cases op with
  | personLoaded a =>
    have h1 : (applyOp (AuthorOp.personLoaded a) s cache).2.1 =
        (s.onPersonLoaded cache a).1 := rfl
    cases hp : s.provider with
    | none =>
      have h2 : (s.onPersonLoaded cache a).1 = cache := by
        simp only [AuthorData.onPersonLoaded, hp]
      constructor
      · left
        rw [h1, h2]
      · intro k hk
        rw [h1, h2]
        exact hk
    | some p =>
      have h2 : (s.onPersonLoaded cache a).1 =
          assocInsert cache (authorKey p.id a.id) a := by
        simp only [AuthorData.onPersonLoaded, hp]
      constructor
      · right
        exact ⟨authorKey p.id a.id, a, by rw [h1, h2]⟩
      · intro k hk
        rw [h1, h2, assocValue_assocInsert]
        by_cases h3 : authorKey p.id a.id = k
        · rw [if_pos h3]
          exact Option.some_ne_none a
        · rw [if_neg h3]
          exact hk
  | setEngine e => exact ⟨Or.inl rfl, fun _ hk => hk⟩
  | setProviderId pid => exact ⟨Or.inl rfl, fun _ hk => hk⟩
  | setUsername u => exact ⟨Or.inl rfl, fun _ hk => hk⟩
  | componentComplete => exact ⟨Or.inl rfl, fun _ hk => hk⟩
  | getName => exact ⟨Or.inl rfl, fun _ hk => hk⟩
  | getDescription => exact ⟨Or.inl rfl, fun _ hk => hk⟩
  | getHomepage => exact ⟨Or.inl rfl, fun _ hk => hk⟩
  | getProfilepage => exact ⟨Or.inl rfl, fun _ hk => hk⟩
  | getAvatarUrl => exact ⟨Or.inl rfl, fun _ hk => hk⟩

/-- Witness for the amended C3: the overwritten key is still cached. -/
theorem allAuthors_insert_only_witness :
    assocValue ((applyOp (AuthorOp.personLoaded aliceRecord) missState
        [(authorKey "p" "alice", staleAliceRecord)]).2.1)
      (authorKey "p" "alice") ≠ none :=
  (allAuthors_insert_only (AuthorOp.personLoaded aliceRecord) missState
      [(authorKey "p" "alice", staleAliceRecord)]).2
    (authorKey "p" "alice") (by decide)

end KNewStuffQuick

namespace KMoreTools

/-- Claim C7: `formatString` resolves the `$GenericName` placeholder by
the three-tier first-non-empty-wins chain generic name, then name, then
desktop entry name; with the terminal desktop entry name non-empty the
result is always non-empty. -/
theorem formatString_genericName_chain (s : ServiceData)
    (h : s.desktopEntryName ≠ "") :
    s.formatString "$GenericName" =
      (if s.genericName ≠ "" then s.genericName
       else if s.name ≠ "" then s.name else s.desktopEntryName) ∧
    s.formatString "$GenericName" ≠ "" := by
  have h1 : s.formatString "$GenericName" = s.resolvedGenericName := by
    unfold ServiceData.formatString
    rw [if_pos rfl]
  constructor
  · rw [h1]
    unfold ServiceData.resolvedGenericName ServiceData.resolvedName
    rfl
  · rw [h1]
    unfold ServiceData.resolvedGenericName ServiceData.resolvedName
    by_cases hg : s.genericName ≠ ""
    · rw [if_pos hg]
      exact hg
    · rw [if_neg hg]
      by_cases hn : s.name ≠ ""
      · rw [if_pos hn]
        exact hn
      · rw [if_neg hn]
        exact h

/-- A service known only through a bundled descriptor that carries
neither a generic name nor a name. -/
def bundledOnlyService : ServiceData :=
  { desktopEntryName := "git-tool"
    genericName := ""
    name := "" }

/-- Witness for C7 at `bundledOnlyService`. -/
theorem formatString_genericName_chain_witness :
    bundledOnlyService.formatString "$GenericName" = "git-tool" ∧
    bundledOnlyService.formatString "$GenericName" ≠ "" := by
  have h := formatString_genericName_chain bundledOnlyService (by decide)
  refine ⟨?_, h.2⟩
  rw [h.1]
  decide

/-- After any `menuBuilder` call, the returned handle is stored in the
builder map under the requested postfix. -/
theorem menuBuilder_lookup (st : State) (a : String) :
    assocValue (menuBuilder st a).2.builders a = some (menuBuilder st a).1 := by
  cases h : assocValue st.builders a with
  | some v =>
    simp only [menuBuilder, h]
  | none =>
    simp only [menuBuilder, h]
    rw [assocValue_assocInsert]
    rw [if_pos rfl]

/-- A `menuBuilder` call leaves the entries of all other postfixes
unchanged. -/
theorem menuBuilder_frame (st : State) (a k : String) (hk : k ≠ a) :
    assocValue (menuBuilder st a).2.builders k = assocValue st.builders k := by
  cases h : assocValue st.builders a with
  | some v =>
    simp only [menuBuilder, h]
  | none =>
    simp only [menuBuilder, h]
    rw [assocValue_assocInsert]
    rw [if_neg (fun hh => hk hh.symm)]

/-- `menuBuilder` on a postfix already in the map returns the stored
handle and leaves the state unchanged. -/
theorem menuBuilder_found (st : State) (a : String) (v : Nat)
    (h : assocValue st.builders a = some v) : menuBuilder st a = (v, st) := by
  simp only [menuBuilder, h]

/-- `menuBuilder` on a postfix not in the map creates and stores a fresh
handle. -/
theorem menuBuilder_fresh (st : State) (a : String)
    (h : assocValue st.builders a = none) :
    menuBuilder st a =
      (st.nextBuilderHandle,
       { st with
          builders := assocInsert st.builders a st.nextBuilderHandle
          nextBuilderHandle := st.nextBuilderHandle + 1 }) := by
  simp only [menuBuilder, h]

/-- Claim C8: `menuBuilder` is memoized per postfix string — a repeated
call with the same postfix returns the identical handle, a call with a
different postfix returns a distinct handle, and already-returned
builders stay stored for the lifetime of the owning instance. -/
theorem menuBuilder_memoized (st : State) (a b : String)
    (hWF : st.WF) (hab : a ≠ b) :
    (menuBuilder (menuBuilder st a).2 a).1 = (menuBuilder st a).1 ∧
    (menuBuilder (menuBuilder st a).2 b).1 ≠ (menuBuilder st a).1 ∧
    assocValue (menuBuilder (menuBuilder st a).2 b).2.builders a =
      some (menuBuilder st a).1 := by
  unfold State.WF at hWF
  obtain ⟨hsb, hbb, hinj⟩ := hWF
  refine ⟨?_, ?_, ?_⟩
  · rw [menuBuilder_found (menuBuilder st a).2 a (menuBuilder st a).1
      (menuBuilder_lookup st a)]
  · cases h : assocValue st.builders a with
    | some v =>
      rw [menuBuilder_found st a v h]
      cases h2 : assocValue st.builders b with
      | some w =>
        rw [menuBuilder_found st b w h2]
        show w ≠ v
        intro heq
        have hma := assocValue_mem st.builders a v h
        have hmb := assocValue_mem st.builders b w h2
        have hba : b = a := hinj (b, w) hmb (a, v) hma heq
        exact hab hba.symm
      | none =>
        rw [menuBuilder_fresh st b h2]
        show st.nextBuilderHandle ≠ v
        intro heq
        have hlt := hbb (a, v) (assocValue_mem st.builders a v h)
        simp only at hlt
        omega
    | none =>
      rw [menuBuilder_fresh st a h]
      cases h2 : assocValue st.builders b with
      | some w =>
        have hb1 : assocValue (assocInsert st.builders a st.nextBuilderHandle) b
            = some w := by
          rw [assocValue_assocInsert, if_neg hab, h2]
        rw [menuBuilder_found _ b w hb1]
        show w ≠ st.nextBuilderHandle
        intro heq
        have hlt := hbb (b, w) (assocValue_mem st.builders b w h2)
        simp only at hlt
        omega
      | none =>
        have hb1 : assocValue (assocInsert st.builders a st.nextBuilderHandle) b
            = none := by
          rw [assocValue_assocInsert, if_neg hab, h2]
        rw [menuBuilder_fresh _ b hb1]
        show st.nextBuilderHandle + 1 ≠ st.nextBuilderHandle
        omega
  · rw [menuBuilder_frame (menuBuilder st a).2 b a hab]
    exact menuBuilder_lookup st a

/-- Witness for C8 on a fresh `KMoreTools` instance. -/
theorem menuBuilder_memoized_witness :
    (menuBuilder (menuBuilder initialState "a").2 "a").1 =
      (menuBuilder initialState "a").1 ∧
    (menuBuilder (menuBuilder initialState "a").2 "b").1 ≠
      (menuBuilder initialState "a").1 :=
  ⟨(menuBuilder_memoized initialState "a" "b" (by decide) (by decide)).1,
   (menuBuilder_memoized initialState "a" "b" (by decide) (by decide)).2.1⟩

/-- Claim C9: re-registering a desktop entry name locates the service
again and replaces the prior handle: the map afterwards holds the new
handle under that name, the new handle differs from any prior one, keys
stay unique (at most one live entry per name), and other names are
untouched. -/
theorem registerService_replaces (st : State) (n : String)
    (hbound : ∀ p ∈ st.services, p.2 < st.nextServiceHandle)
    (huniq : keysUnique st.services) :
    assocValue (registerServiceByDesktopEntryName st n).2.services n =
      some (registerServiceByDesktopEntryName st n).1 ∧
    (∀ h, assocValue st.services n = some h →
      (registerServiceByDesktopEntryName st n).1 ≠ h) ∧
    keysUnique (registerServiceByDesktopEntryName st n).2.services ∧
    (∀ p ∈ (registerServiceByDesktopEntryName st n).2.services,
      p.2 < (registerServiceByDesktopEntryName st n).2.nextServiceHandle) ∧
    (∀ m, m ≠ n →
      assocValue (registerServiceByDesktopEntryName st n).2.services m =
        assocValue st.services m) := by
  refine ⟨?_, ?_, ?_, ?_, ?_⟩
  · show assocValue (assocInsert st.services n st.nextServiceHandle) n =
      some st.nextServiceHandle
    rw [assocValue_assocInsert, if_pos rfl]
  · intro hdl hh
    have hlt := hbound (n, hdl) (assocValue_mem st.services n hdl hh)
    simp only at hlt
    show st.nextServiceHandle ≠ hdl
    omega
  · show keysUnique (assocInsert st.services n st.nextServiceHandle)
    exact keysUnique_assocInsert st.services n st.nextServiceHandle huniq
  · intro p hp
    rcases mem_assocInsert st.services n st.nextServiceHandle p hp with h1 | h1
    · rw [h1]
      show st.nextServiceHandle < st.nextServiceHandle + 1
      omega
    · have hlt := hbound p h1
      show p.2 < st.nextServiceHandle + 1
      omega
  · intro m hm
    show assocValue (assocInsert st.services n st.nextServiceHandle) m =
      assocValue st.services m
    rw [assocValue_assocInsert, if_neg (fun hh => hm hh.symm)]

/-- Witness for C9: registering `gitk` twice from a fresh instance
replaces handle 0 with handle 1. -/
theorem registerService_replaces_witness :
    assocValue ((registerServiceByDesktopEntryName
        (registerServiceByDesktopEntryName initialState "gitk").2
        "gitk").2.services) "gitk" = some 1 ∧
    (registerServiceByDesktopEntryName
        (registerServiceByDesktopEntryName initialState "gitk").2
        "gitk").1 ≠ 0 := by
  have h := registerService_replaces
      (registerServiceByDesktopEntryName initialState "gitk").2 "gitk"
      (by decide) (by decide)
  exact ⟨h.1, h.2.1 0 (by decide)⟩

/-- Claim C10: at build time, every item backed by a not-installed
service is placed in the "Not installed" subsection of the "More"
submenu regardless of its requested default section, and never appears
among the main-section actions. -/
theorem notInstalled_relocated (items : List MenuItemData)
    (it : MenuItemData) (hmem : it ∈ items)
    (hsvc : it.serviceBacked = true) (hinst : it.installed = false) :
    placeItem it = Placement.notInstalledSection ∧
    it ∈ (buildByAppendingToMenu items).2.2 ∧
    it ∉ (buildByAppendingToMenu items).1 := by
  have hplace : placeItem it = Placement.notInstalledSection := by
    unfold placeItem
    rw [if_pos ⟨hsvc, hinst⟩]
  refine ⟨hplace, ?_, ?_⟩
  · show it ∈ items.filter (fun x => placeItem x == Placement.notInstalledSection)
    rw [List.mem_filter]
    refine ⟨hmem, ?_⟩
    rw [hplace]
    decide
  · show it ∉ items.filter (fun x => placeItem x == Placement.mainSection)
    intro hbad
    rw [List.mem_filter] at hbad
    have h2 := hbad.2
    rw [hplace] at h2
    exact absurd h2 (by decide)

/-- A not-installed service-backed item requested for the main section. -/
def notInstalledTool : MenuItemData :=
  { itemId := "gitk"
    serviceBacked := true
    installed := false
    defaultLocation := MenuSection.main }

/-- Witness for C10 at a one-item menu. -/
theorem notInstalled_relocated_witness :
    notInstalledTool ∈ (buildByAppendingToMenu [notInstalledTool]).2.2 ∧
    notInstalledTool ∉ (buildByAppendingToMenu [notInstalledTool]).1 := by
  have h := notInstalled_relocated [notInstalledTool] notInstalledTool
      (List.mem_singleton.mpr rfl) rfl rfl
  exact ⟨h.2.1, h.2.2⟩

end KMoreTools
